import Mathlib

/-!
Shallow embedding of the kedro data-catalog sources
(`src/kedro/io/kedro_data_catalog.py` and `src/kedro/io/old_data_catalog.py`).

Python dictionaries are modelled as association lists with insert-or-update
semantics that keep the position of an existing key (as Python dicts do);
Python exceptions are modelled with `Except`/`Option` results.  Parts of the
repository that the sources reference but that are not present under `src/`
(the `AbstractDataCatalog` base class, the dataset factory, the pattern
matcher) are modelled from the specification and marked as such in their
doc comments.
-/

namespace Kedro

/-! ### Python dict as an association list -/

/-- `m[k]` lookup on a Python dict: the value stored at the first (unique) occurrence
of the key, `none` when absent. -/
def assocGet {α : Type} (m : List (String × α)) (k : String) : Option α :=
  match m with
  | [] => none
  | (k', v) :: rest => if k' = k then some v else assocGet rest k

/-- `m[k] = v` on a Python dict: updates the value in place when the key is present
(keeping its position), appends the new pair otherwise. -/
def assocSet {α : Type} (m : List (String × α)) (k : String) (v : α) : List (String × α) :=
  match m with
  | [] => [(k, v)]
  | (k', v') :: rest => if k' = k then (k', v) :: rest else (k', v') :: assocSet rest k v

/-- `del m[k]` on a Python dict: removes the key when present. -/
def assocRemove {α : Type} (m : List (String × α)) (k : String) : List (String × α) :=
  match m with
  | [] => []
  | (k', v') :: rest => if k' = k then rest else (k', v') :: assocRemove rest k

/-! ### Datasets and versions -/

/-- `kedro.io.core.Version`, a two-field named tuple of an optional load version and an
optional save version.  Being a two-field tuple, a `Version` value is always truthy in
Python. -/
structure Version where
  load : Option String
  save : Option String
deriving DecidableEq

/-- An `AbstractDataset` instance as the catalog observes it: whether it is an
`AbstractVersionedDataset` (version-aware), its current version constraint, whether it
exposes a `confirm` method, the literal value it holds when it is a `MemoryDataset`,
and an identity tag distinguishing otherwise equal instances.  The catalog never
inspects datasets beyond these capabilities. -/
structure Dataset where
  isVersioned : Bool
  version : Option Version
  hasConfirm : Bool
  memoryData : Option Nat
  tag : Nat
deriving DecidableEq

/-- `MemoryDataset(data=value)`: an in-memory dataset holding the literal value; it is
not version-aware and has no `confirm` method. -/
def MemoryDataset (data : Nat) : Dataset :=
  { isVersioned := false, version := none, hasConfirm := false,
    memoryData := some data, tag := 0 }

/-- Modelled from the spec: `AbstractVersionedDataset._copy(_version=...)` (not under
`src/`) returns a shallow copy of the dataset with only its version constraint
replaced by the supplied value. -/
def Dataset.copyWithVersion (d : Dataset) (v : Version) : Dataset :=
  { d with version := some v }

/-- The observable result of `dataset.load()`: a `MemoryDataset` returns the literal
value it holds; any other dataset's load is opaque and determined by the dataset's
identity and its version constraint. -/
inductive LoadResult where
  | memory (data : Nat)
  | external (tag : Nat) (version : Option Version)
deriving DecidableEq

/-- Modelled from the spec: dataset `load` is delegated to the dataset implementation;
the catalog returns its result verbatim. -/
def Dataset.loadResult (d : Dataset) : LoadResult :=
  match d.memoryData with
  | some data => .memory data
  | none => .external d.tag d.version

/-! ### The catalog -/

/-- A raw dataset configuration record (an option-name to value mapping). -/
abbrev DsConfig := List (String × String)

/-- The catalog-level error taxonomy raised by the embedded operations. -/
inductive CatalogError where
  | datasetNotFound (msg : String)
  | datasetAlreadyExists (msg : String)
  | datasetError (msg : String)
deriving DecidableEq

/-- The state of a `KedroDataCatalog`: the materialised datasets (`self._datasets`), the
per-name resolved configuration records (`self._resolved_ds_configs`), the raw
configuration (`self._config`), the per-name load-version overrides
(`self._load_versions`) and the global save version (`self._save_version`). -/
structure KedroDataCatalog where
  datasets : List (String × Dataset)
  resolvedConfigs : List (String × DsConfig)
  config : List (String × DsConfig)
  loadVersions : List (String × String)
  saveVersion : Option String
deriving DecidableEq

/-- Modelled from the spec: `AbstractDataCatalog.__init__` (base class, not under
`src/`) stores the supplied datasets and raw configuration; materialisation is lazy, so
no dataset is built at construction, and credential resolution is out of scope.  The
load-version and save-version fields are the ones `KedroDataCatalog.__init__` sets
before delegating to the base constructor. -/
def abstractCatalogInit (datasets : List (String × Dataset))
    (config : List (String × DsConfig)) (loadVersions : List (String × String))
    (saveVersion : Option String) : KedroDataCatalog :=
  { datasets := datasets, resolvedConfigs := [], config := config,
    loadVersions := loadVersions, saveVersion := saveVersion }

/-- `KedroDataCatalog._validate_missing_keys`: collects every load-version key that is
neither a key of the raw configuration nor matched by a pattern and, when any exist,
raises `DatasetNotFoundError` listing them sorted.  `match_pattern` comes from the base
class (not under `src/`) and is modelled from the spec as the predicate "the name
matches some non-default pattern"; it is passed as a parameter. -/
def _validate_missing_keys (matchPattern : String → Bool) (cat : KedroDataCatalog) :
    Option CatalogError :=
  let missingKeys := (cat.loadVersions.map Prod.fst).filter
    (fun key => !((assocGet cat.config key).isSome || matchPattern key))
  if missingKeys.isEmpty then none
  else some (.datasetNotFound
    ("'load_versions' keys [" ++
      String.intercalate ", " (missingKeys.insertionSort (· ≤ ·)) ++
      "] are not found in the catalog."))

/-- `KedroDataCatalog.__init__`: store the version overrides, run the base constructor,
then `_validate_missing_keys`; a validation failure propagates as the construction
result. -/
def kedroDataCatalogInit (matchPattern : String → Bool)
    (datasets : List (String × Dataset)) (config : List (String × DsConfig))
    (loadVersions : List (String × String)) (saveVersion : Option String) :
    Except CatalogError KedroDataCatalog :=
  let cat := abstractCatalogInit datasets config loadVersions saveVersion
  match _validate_missing_keys matchPattern cat with
  | some e => .error e
  | none => .ok cat

/-- `KedroDataCatalog._init_dataset`: materialises the dataset for a name from its
configuration through `AbstractDataset.from_config` (the factory is external to
`src/` and passed as the parameter `fromConfig`), handing it the per-name load-version
override and the global save version, and stores it in `self._datasets`. -/
def _init_dataset (fromConfig : String → DsConfig → Option String → Option String → Dataset)
    (cat : KedroDataCatalog) (dsName : String) (config : DsConfig) : KedroDataCatalog :=
  let d := fromConfig dsName config (assocGet cat.loadVersions dsName) cat.saveVersion
  { cat with datasets := assocSet cat.datasets dsName d }

/-- Modelled from the spec: `AbstractDataCatalog.get_dataset` (base class, not under
`src/`).  Returns the cached dataset when present; otherwise materialises it from the
explicit raw configuration, or from the configuration template the pattern matcher
resolves for the name (`resolvePattern` abstracts the Pattern Matcher as the template
it yields, `none` when no pattern matches); otherwise raises `DatasetNotFoundError`
(near-miss suggestions, a usability aid controlled by `suggest`, are folded into the
message text and not modelled further).  Materialisation goes through
`KedroDataCatalog._init_dataset`. -/
def abstractGetDataset
    (fromConfig : String → DsConfig → Option String → Option String → Dataset)
    (resolvePattern : String → Option DsConfig) (cat : KedroDataCatalog)
    (dsName : String) (suggest : Bool) :
    Except CatalogError (Dataset × KedroDataCatalog) :=
  match assocGet cat.datasets dsName with
  | some d => .ok (d, cat)
  | none =>
    match (assocGet cat.config dsName).orElse (fun _ => resolvePattern dsName) with
    | some cfg =>
      .ok (fromConfig dsName cfg (assocGet cat.loadVersions dsName) cat.saveVersion,
           _init_dataset fromConfig cat dsName cfg)
    | none => .error (.datasetNotFound
        ("Dataset '" ++ dsName ++ "' not found in the catalog"))

/-- `KedroDataCatalog.get_dataset`: delegates to the base `get_dataset` and, when a
version was requested (`if version` — a `Version` named tuple is always truthy, so the
Python test is exactly "a version was supplied") and the dataset is an
`AbstractVersionedDataset`, returns a copy with only the version overridden instead of
the stored instance. -/
def get_dataset (fromConfig : String → DsConfig → Option String → Option String → Dataset)
    (resolvePattern : String → Option DsConfig) (cat : KedroDataCatalog)
    (dsName : String) (suggest : Bool) (version : Option Version) :
    Except CatalogError (Dataset × KedroDataCatalog) :=
  match abstractGetDataset fromConfig resolvePattern cat dsName suggest with
  | .error e => .error e
  | .ok (dataset, cat') =>
    match version with
    | some v =>
      if dataset.isVersioned then .ok (dataset.copyWithVersion v, cat')
      else .ok (dataset, cat')
    | none => .ok (dataset, cat')

/-- `KedroDataCatalog.add`: raises `DatasetAlreadyExistsError` when the name is already
registered and `replace` is false (with `replace` it only logs a warning); on success
stores the dataset and sets the resolved configuration record for the name to the
empty record. -/
def add (cat : KedroDataCatalog) (dsName : String) (dataset : Dataset)
    (replace : Bool) : Except CatalogError KedroDataCatalog :=
  if (assocGet cat.datasets dsName).isSome && !replace then
    .error (.datasetAlreadyExists
      ("Dataset '" ++ dsName ++ "' has already been registered"))
  else
    .ok { cat with datasets := assocSet cat.datasets dsName dataset,
                   resolvedConfigs := assocSet cat.resolvedConfigs dsName [] }

/-- A value of the dictionary handed to `add_from_dict`: either an `AbstractDataset`
instance or any other (opaque) value. -/
inductive RawValue where
  | dataset (d : Dataset)
  | value (data : Nat)
deriving DecidableEq

/-- The per-entry conversion inside `add_from_dict`: a value that already is an
`AbstractDataset` is used as-is, any other value is wrapped in a `MemoryDataset`
holding it. -/
def RawValue.toDataset : RawValue → Dataset
  | .dataset d => d
  | .value data => MemoryDataset data

/-- `KedroDataCatalog.add_from_dict`: adds the entries in order with `add` semantics.
A raised error propagates, leaving the catalog in the state reached so far (Python
mutates `self` in place, so earlier successful additions are not rolled back); the
pair returned here is that state together with the error, if any. -/
def add_from_dict (cat : KedroDataCatalog) (entries : List (String × RawValue))
    (replace : Bool) : KedroDataCatalog × Option CatalogError :=
  match entries with
  | [] => (cat, none)
  | (dsName, v) :: rest =>
    match add cat dsName v.toDataset replace with
    | .ok cat' => add_from_dict cat' rest replace
    | .error e => (cat, some e)

/-- `KedroDataCatalog.load`: builds `Version(version, None)` when a version string was
supplied (`if version` — the empty string is falsy in Python), resolves the dataset
through `get_dataset` and returns the dataset's load result. -/
def load (fromConfig : String → DsConfig → Option String → Option String → Dataset)
    (resolvePattern : String → Option DsConfig) (cat : KedroDataCatalog)
    (name : String) (version : Option String) :
    Except CatalogError (LoadResult × KedroDataCatalog) :=
  let loadVersion : Option Version :=
    match version with
    | some v => if v = "" then none else some { load := some v, save := none }
    | none => none
  match get_dataset fromConfig resolvePattern cat name true loadVersion with
  | .error e => .error e
  | .ok (dataset, cat') => .ok (dataset.loadResult, cat')

/-- The observable outcome of a successful `confirm`: the dataset whose `confirm`
method was invoked. -/
inductive ConfirmOutcome where
  | confirmed (d : Dataset)
deriving DecidableEq

/-- `KedroDataCatalog.confirm`: resolves the dataset through `get_dataset` (default
arguments: suggestions on, no version); when it has a `confirm` method the method is
invoked, otherwise a `DatasetError` naming the dataset and the missing method is
raised. -/
def confirm (fromConfig : String → DsConfig → Option String → Option String → Dataset)
    (resolvePattern : String → Option DsConfig) (cat : KedroDataCatalog)
    (name : String) : Except CatalogError (ConfirmOutcome × KedroDataCatalog) :=
  match get_dataset fromConfig resolvePattern cat name true none with
  | .error e => .error e
  | .ok (dataset, cat') =>
    if dataset.hasConfirm then .ok (.confirmed dataset, cat')
    else .error (.datasetError
      ("Dataset '" ++ name ++ "' does not have 'confirm' method"))

/-! ### `old_data_catalog.py`: name sanitisation and the frozen namespace -/

/-- A word character in the sense of the regex `\W` used by `_sub_nonword_chars`:
a letter, a digit or an underscore. -/
def isWordChar (c : Char) : Bool := c.isAlphanum || c = '_'

/-- The scan performed by `re.sub(r"\W+", "__", name)` over the character list: a word
character is copied and ends any run; the first non-word character of a run emits two
underscores and the rest of the run (tracked by the `inRun` flag) is skipped. -/
def subNonwordAux : Bool → List Char → List Char
  | _, [] => []
  | inRun, c :: rest =>
    if isWordChar c then c :: subNonwordAux false rest
    else if inRun then subNonwordAux true rest
    else '_' :: '_' :: subNonwordAux true rest

/-- `_sub_nonword_chars`: `re.sub(WORDS_REGEX_PATTERN, "__", dataset_name)` with
`WORDS_REGEX_PATTERN = re.compile(r"\W+")`. -/
def _sub_nonword_chars (dataset_name : String) : String :=
  ⟨subNonwordAux false dataset_name.toList⟩

/-- The maximal runs of same word-class characters of a name, in order: each run is a
head character together with the longest following prefix of the same class. -/
def wordRuns : List Char → List (List Char)
  | [] => []
  | c :: rest =>
    if isWordChar c then
      (c :: rest.takeWhile isWordChar) :: wordRuns (rest.dropWhile isWordChar)
    else
      (c :: rest.takeWhile (fun x => !isWordChar x)) ::
        wordRuns (rest.dropWhile (fun x => !isWordChar x))
termination_by l => l.length
decreasing_by
  · exact Nat.lt_succ_of_le (List.dropWhile_sublist _).length_le
  · exact Nat.lt_succ_of_le (List.dropWhile_sublist _).length_le

/-- The specification's reading of sanitisation: split the name into maximal runs of
same word-class characters, keep every word run and replace every non-word run by a
double underscore. -/
def sanitizeSpec (l : List Char) : List Char :=
  ((wordRuns l).map (fun r => if r.all isWordChar then r else ['_', '_'])).flatten

/-- An entry of a `_FrozenDatasets` instance dictionary: either a dataset stored under
a sanitised key, or the `_original_names` bookkeeping dict (its values, always the
empty string, are dropped and only the keys kept). -/
inductive PyEntry where
  | ds (d : Dataset)
  | names (m : List String)
deriving DecidableEq

/-- A `_FrozenDatasets` object, i.e. its instance dictionary `__dict__` (which holds
both the sanitised dataset keys and the `_original_names` slot). -/
structure FrozenDatasets where
  dict : List (String × PyEntry)
deriving DecidableEq

/-- A `*datasets_collections` argument of `_FrozenDatasets.__init__`: another
`_FrozenDatasets` or a plain dictionary of datasets. -/
inductive DatasetsCollection where
  | frozen (fd : FrozenDatasets)
  | dict (m : List (String × Dataset))

/-- `m[k] = ""` on the `_original_names` dict: Python dict keys keep their first
insertion position, so a repeated name changes nothing observable. -/
def namesInsert (m : List String) (k : String) : List String :=
  if k ∈ m then m else m ++ [k]

/-- `self._original_names.update(other)`: inserts the other dict's keys in order. -/
def namesUpdateAll (m other : List String) : List String :=
  other.foldl namesInsert m

/-- One dictionary entry of a dict collection in `_FrozenDatasets.__init__`: store the
dataset under the sanitised name, then record the original name in `_original_names`.
When that slot no longer holds a dict (the dataset's own name sanitised to
`_original_names` and overwrote it) Python raises a `TypeError`; this is modelled as
the error result. -/
def frozenAddEntry (dict : List (String × PyEntry)) (dsName : String) (d : Dataset) :
    Except String (List (String × PyEntry)) :=
  let dict1 := assocSet dict (_sub_nonword_chars dsName) (.ds d)
  match assocGet dict1 "_original_names" with
  | some (.names m) =>
    .ok (assocSet dict1 "_original_names" (.names (namesInsert m dsName)))
  | _ => .error "TypeError: _original_names does not hold a dict"

/-- One collection of `_FrozenDatasets.__init__`: a `_FrozenDatasets` collection is
merged with `self.__dict__.update(collection.__dict__)` followed by
`self._original_names.update(collection._original_names)`; a dict collection is added
entry by entry. -/
def frozenAddCollection (dict : List (String × PyEntry)) :
    DatasetsCollection → Except String (List (String × PyEntry))
  | .frozen fd =>
    let dict1 := fd.dict.foldl (fun acc kv => assocSet acc kv.1 kv.2) dict
    match assocGet dict1 "_original_names", assocGet fd.dict "_original_names" with
    | some (.names m), some (.names m') =>
      .ok (assocSet dict1 "_original_names" (.names (namesUpdateAll m m')))
    | _, _ => .error "TypeError: _original_names does not hold a dict"
  | .dict m =>
    m.foldl (fun (acc : Except String (List (String × PyEntry))) kv =>
      acc.bind (fun d => frozenAddEntry d kv.1 kv.2)) (.ok dict)

/-- `_FrozenDatasets.__init__`: starts from an instance dictionary holding only the
empty `_original_names` dict (its assignment is the one `__setattr__` permits) and
processes the collections in order. -/
def frozenInit (collections : List DatasetsCollection) : Except String FrozenDatasets :=
  (collections.foldl (fun (acc : Except String (List (String × PyEntry))) c =>
      acc.bind (fun d => frozenAddCollection d c))
    (.ok [("_original_names", PyEntry.names [])])).map FrozenDatasets.mk

/-- `_FrozenDatasets.__setattr__`: the key `_original_names` is stored through
`object.__setattr__`; any other key raises an `AttributeError` whose message depends
on whether the key is already present in the instance dictionary. -/
def FrozenDatasets.setattr (fd : FrozenDatasets) (key : String) (value : PyEntry) :
    Except String FrozenDatasets :=
  if key = "_original_names" then .ok ⟨assocSet fd.dict key value⟩
  else if (assocGet fd.dict key).isSome then
    .error "Operation not allowed! Please change datasets through configuration."
  else .error "Operation not allowed! Please use DataCatalog.add() instead."

/-- Modelled from Python itself: `_FrozenDatasets` defines no `__delattr__`, so
attribute deletion falls through to `object.__delattr__`, which removes the key from
the instance dictionary when present and raises the default `AttributeError`
otherwise. -/
def FrozenDatasets.delattr (fd : FrozenDatasets) (key : String) :
    Except String FrozenDatasets :=
  if (assocGet fd.dict key).isSome then .ok ⟨assocRemove fd.dict key⟩
  else .error ("'_FrozenDatasets' object has no attribute '" ++ key ++ "'")

/-- `_FrozenDatasets.__getitem__`: looks the sanitised key up in the instance
dictionary (`none` models the `KeyError` Python raises when it is absent). -/
def FrozenDatasets.getitem (fd : FrozenDatasets) (key : String) : Option PyEntry :=
  assocGet fd.dict (_sub_nonword_chars key)

/-- `_FrozenDatasets._ipython_key_completions_`: the keys of `_original_names`
(`none` models the failure Python would raise if the slot no longer held a dict). -/
def FrozenDatasets.keyCompletions (fd : FrozenDatasets) : Option (List String) :=
  match assocGet fd.dict "_original_names" with
  | some (.names m) => some m
  | _ => none

/-! ### Claim-side definitions and concrete test data -/

/-- The load-version override keys that name neither an explicitly configured dataset
nor a pattern-matched name — the keys the specification says construction must
report. -/
def offendingKeys (matchPattern : String → Bool) (config : List (String × DsConfig))
    (loadVersions : List (String × String)) : List String :=
  (loadVersions.map Prod.fst).filter
    (fun k => !(decide (k ∈ config.map Prod.fst) || matchPattern k))

/-- The catalog state `add` installs: the dataset stored under the name and the
resolved configuration record for the name set to the empty record. -/
def addedState (cat : KedroDataCatalog) (dsName : String) (dataset : Dataset) :
    KedroDataCatalog :=
  { cat with datasets := assocSet cat.datasets dsName dataset,
             resolvedConfigs := assocSet cat.resolvedConfigs dsName [] }

/-- A plain unversioned dataset used as concrete test data. -/
def dsPlain : Dataset :=
  { isVersioned := false, version := none, hasConfirm := false, memoryData := none,
    tag := 1 }

/-- A second plain dataset, distinguishable from `dsPlain` by its tag. -/
def dsOther : Dataset :=
  { isVersioned := false, version := none, hasConfirm := false, memoryData := none,
    tag := 2 }

/-- A version-aware dataset used as concrete test data. -/
def dsVersioned : Dataset :=
  { isVersioned := true, version := none, hasConfirm := false, memoryData := none,
    tag := 7 }

/-- A dataset exposing a `confirm` method, used as concrete test data. -/
def dsConfirmable : Dataset :=
  { isVersioned := false, version := none, hasConfirm := true, memoryData := none,
    tag := 3 }

/-- A concrete dataset factory for witnesses: ignores its arguments. -/
def fcTest : String → DsConfig → Option String → Option String → Dataset :=
  fun _ _ _ _ => dsPlain

/-- A concrete pattern resolver for witnesses: nothing matches. -/
def rpTest : String → Option DsConfig := fun _ => none

/-- A concrete catalog with a versioned, an unversioned and a confirmable dataset. -/
def catTest : KedroDataCatalog :=
  { datasets := [("rep", dsVersioned), ("plain", dsPlain), ("conf", dsConfirmable)],
    resolvedConfigs := [], config := [], loadVersions := [], saveVersion := none }

/-- The namespace `frozenInit` builds from the single collection `{"a": dsPlain}`. -/
def fdTest : FrozenDatasets :=
  ⟨[("_original_names", .names ["a"]), ("a", .ds dsPlain)]⟩

/-- The namespace `frozenInit` builds from `{"a.b": dsPlain, "a b": dsOther}`, whose
two names collide on the sanitised key "a__b". -/
def fdCollision : FrozenDatasets :=
  ⟨[("_original_names", .names ["a.b", "a b"]), ("a__b", .ds dsOther)]⟩

/-! ### Lemmas about the dict model -/

theorem assocGet_assocSet_self {α : Type} (m : List (String × α)) (k : String) (v : α) :
    assocGet (assocSet m k v) k = some v := by
  induction m with
  | nil => simp [assocGet, assocSet]
  | cons p rest ih =>
    obtain ⟨k', v'⟩ := p
    by_cases h : k' = k
    · simp [assocGet, assocSet, h]
    · simp [assocGet, assocSet, h, ih]

theorem assocGet_assocSet_ne {α : Type} (m : List (String × α)) {k k' : String} (v : α)
    (h : k' ≠ k) : assocGet (assocSet m k v) k' = assocGet m k' := by
  induction m with
  | nil => simp [assocGet, assocSet, Ne.symm h]
  | cons p rest ih =>
    obtain ⟨k₀, v₀⟩ := p
    by_cases h0 : k₀ = k
    · subst h0
      simp [assocGet, assocSet, Ne.symm h]
    · simp only [assocSet, if_neg h0]
      by_cases h1 : k₀ = k'
      · simp [assocGet, h1]
      · simp [assocGet, h1, ih]

theorem assocGet_isSome_eq {α : Type} (m : List (String × α)) (k : String) :
    (assocGet m k).isSome = decide (k ∈ m.map Prod.fst) := by
  induction m with
  | nil => rfl
  | cons p rest ih =>
    obtain ⟨k', v'⟩ := p
    by_cases h : k' = k
    · simp [assocGet, h]
    · simp [assocGet, h, ih, Ne.symm h]

/-! ### C2, C3: versioned copies from `get_dataset` -/

/-- C2: for a registered name whose cached dataset is version-aware and any non-None
version, `get_dataset` returns a copy of the cached dataset with only its version
overridden, leaves the catalog unchanged, and a later `get_dataset` without a version
still yields the original, unmodified instance. -/
theorem get_dataset_version_copy_no_mutation
    (fromConfig : String → DsConfig → Option String → Option String → Dataset)
    (resolvePattern : String → Option DsConfig) (cat : KedroDataCatalog)
    (name : String) (d : Dataset) (v : Version) (suggest : Bool)
    (hcached : assocGet cat.datasets name = some d) (hver : d.isVersioned = true) :
    get_dataset fromConfig resolvePattern cat name suggest (some v) =
      .ok ({ d with version := some v }, cat) ∧
    get_dataset fromConfig resolvePattern cat name suggest none = .ok (d, cat) := by
  constructor <;>
    simp [get_dataset, abstractGetDataset, hcached, hver, Dataset.copyWithVersion]

/-- C2 witness: a concrete versioned dataset under "rep"; requesting version "2023"
yields the version-overridden copy and the catalog keeps the original. -/
theorem get_dataset_version_copy_no_mutation_witness :
    get_dataset fcTest rpTest catTest "rep" true (some ⟨some "2023", none⟩) =
      .ok ({ dsVersioned with version := some ⟨some "2023", none⟩ }, catTest) ∧
    get_dataset fcTest rpTest catTest "rep" true none = .ok (dsVersioned, catTest) :=
  get_dataset_version_copy_no_mutation fcTest rpTest catTest "rep" dsVersioned
    ⟨some "2023", none⟩ true rfl rfl

/-- C3: for a registered name whose cached dataset is not version-aware,
`get_dataset` ignores any version argument and returns the resolved dataset itself
without raising. -/
theorem get_dataset_ignores_version_for_unversioned
    (fromConfig : String → DsConfig → Option String → Option String → Dataset)
    (resolvePattern : String → Option DsConfig) (cat : KedroDataCatalog)
    (name : String) (d : Dataset) (version : Option Version) (suggest : Bool)
    (hcached : assocGet cat.datasets name = some d) (hver : d.isVersioned = false) :
    get_dataset fromConfig resolvePattern cat name suggest version = .ok (d, cat) := by
  cases version <;> simp [get_dataset, abstractGetDataset, hcached, hver]

/-- C3 witness: the unversioned dataset under "plain" is returned unchanged even when
a version is requested. -/
theorem get_dataset_ignores_version_for_unversioned_witness :
    get_dataset fcTest rpTest catTest "plain" true (some ⟨some "2023", none⟩) =
      .ok (dsPlain, catTest) :=
  get_dataset_ignores_version_for_unversioned fcTest rpTest catTest "plain" dsPlain
    (some ⟨some "2023", none⟩) true rfl rfl

/-! ### C4: `add` -/

/-- C4: `add` without `replace` raises `DatasetAlreadyExistsError` exactly when the
name is registered; otherwise (and always with `replace`) it installs the dataset,
sets the stored configuration record for the name to the empty record, and a
subsequent `get_dataset` returns the newly added dataset. -/
theorem add_already_exists_iff_and_installs (cat : KedroDataCatalog) (name : String)
    (dataset : Dataset) :
    ((assocGet cat.datasets name).isSome = true →
      add cat name dataset false =
        .error (.datasetAlreadyExists
          ("Dataset '" ++ name ++ "' has already been registered"))) ∧
    ((assocGet cat.datasets name).isSome = false →
      add cat name dataset false = .ok (addedState cat name dataset)) ∧
    (add cat name dataset true = .ok (addedState cat name dataset)) ∧
    (assocGet (addedState cat name dataset).datasets name = some dataset) ∧
    (assocGet (addedState cat name dataset).resolvedConfigs name = some []) ∧
    (∀ fromConfig resolvePattern suggest,
      get_dataset fromConfig resolvePattern (addedState cat name dataset) name suggest
        none = .ok (dataset, addedState cat name dataset)) := by
  refine ⟨fun h => ?_, fun h => ?_, ?_, ?_, ?_, fun fc rp s => ?_⟩
  · simp [add, h]
  · simp [add, h, addedState]
  · simp [add, addedState]
  · simp [addedState, assocGet_assocSet_self]
  · simp [addedState, assocGet_assocSet_self]
  · simp [get_dataset, abstractGetDataset, addedState, assocGet_assocSet_self]

/-- C4 witness: adding under the occupied name "plain" fails, adding under the fresh
name "fresh" succeeds and is then returned by `get_dataset`. -/
theorem add_already_exists_iff_and_installs_witness :
    (add catTest "plain" dsOther false =
      .error (.datasetAlreadyExists "Dataset 'plain' has already been registered")) ∧
    (add catTest "fresh" dsOther false = .ok (addedState catTest "fresh" dsOther)) ∧
    get_dataset fcTest rpTest (addedState catTest "fresh" dsOther) "fresh" true none =
      .ok (dsOther, addedState catTest "fresh" dsOther) :=
  ⟨(add_already_exists_iff_and_installs catTest "plain" dsOther).1 rfl,
   (add_already_exists_iff_and_installs catTest "fresh" dsOther).2.1 rfl,
   (add_already_exists_iff_and_installs catTest "fresh" dsOther).2.2.2.2.2 fcTest
     rpTest true⟩

/-! ### C6: `confirm` -/

/-- C6: once `get_dataset` resolves a name to a dataset, `confirm` invokes the
dataset's `confirm` method when it has one and otherwise raises a `DatasetError`
naming the dataset and the missing method; no other outcome is possible. -/
theorem confirm_invokes_or_raises
    (fromConfig : String → DsConfig → Option String → Option String → Dataset)
    (resolvePattern : String → Option DsConfig) (cat cat' : KedroDataCatalog)
    (name : String) (d : Dataset)
    (hres : get_dataset fromConfig resolvePattern cat name true none = .ok (d, cat')) :
    (d.hasConfirm = true →
      confirm fromConfig resolvePattern cat name = .ok (.confirmed d, cat')) ∧
    (d.hasConfirm = false →
      confirm fromConfig resolvePattern cat name =
        .error (.datasetError
          ("Dataset '" ++ name ++ "' does not have 'confirm' method"))) := by
  constructor <;> intro h <;> simp [confirm, hres, h]

/-- C6 witness: "conf" has a confirm method and is confirmed; "plain" has none and
raises the `DatasetError` with the documented message. -/
theorem confirm_invokes_or_raises_witness :
    confirm fcTest rpTest catTest "conf" = .ok (.confirmed dsConfirmable, catTest) ∧
    confirm fcTest rpTest catTest "plain" =
      .error (.datasetError "Dataset 'plain' does not have 'confirm' method") :=
  ⟨(confirm_invokes_or_raises fcTest rpTest catTest catTest "conf" dsConfirmable
      rfl).1 rfl,
   (confirm_invokes_or_raises fcTest rpTest catTest catTest "plain" dsPlain
      rfl).2 rfl⟩

/-! ### C1: construction-time validation of `load_versions` -/

theorem validate_missing_eq_offending (matchPattern : String → Bool)
    (cat : KedroDataCatalog) :
    (cat.loadVersions.map Prod.fst).filter
      (fun key => !((assocGet cat.config key).isSome || matchPattern key)) =
    offendingKeys matchPattern cat.config cat.loadVersions := by
  unfold offendingKeys
  exact List.filter_congr (fun x _ => by rw [assocGet_isSome_eq])

theorem validate_missing_keys_eq (matchPattern : String → Bool)
    (cat : KedroDataCatalog) :
    _validate_missing_keys matchPattern cat =
      (if offendingKeys matchPattern cat.config cat.loadVersions = [] then none
       else some (.datasetNotFound ("'load_versions' keys [" ++
         String.intercalate ", "
           ((offendingKeys matchPattern cat.config cat.loadVersions).insertionSort
             (· ≤ ·)) ++
         "] are not found in the catalog."))) := by
  simp only [_validate_missing_keys, validate_missing_eq_offending, List.isEmpty_iff]

/-- C1: construction fails with `DatasetNotFoundError` exactly when some
`load_versions` key is neither an explicitly configured dataset name nor matched by a
pattern; the message enumerates exactly the offending keys in sorted order, and when
every key is known construction succeeds with the state the base constructor built
(validation mutates nothing). -/
theorem init_fails_iff_unknown_load_version_keys (matchPattern : String → Bool)
    (datasets : List (String × Dataset)) (config : List (String × DsConfig))
    (loadVersions : List (String × String)) (saveVersion : Option String) :
    (offendingKeys matchPattern config loadVersions = [] →
      kedroDataCatalogInit matchPattern datasets config loadVersions saveVersion =
        .ok (abstractCatalogInit datasets config loadVersions saveVersion)) ∧
    (offendingKeys matchPattern config loadVersions ≠ [] →
      ∃ l, l.Perm (offendingKeys matchPattern config loadVersions) ∧
        List.Sorted (· ≤ ·) l ∧
        kedroDataCatalogInit matchPattern datasets config loadVersions saveVersion =
          .error (.datasetNotFound ("'load_versions' keys [" ++
            String.intercalate ", " l ++ "] are not found in the catalog."))) := by
  constructor
  · intro h
    simp [kedroDataCatalogInit, validate_missing_keys_eq, abstractCatalogInit, h]
  · intro h
    refine ⟨(offendingKeys matchPattern config loadVersions).insertionSort (· ≤ ·),
      List.perm_insertionSort _ _, List.sorted_insertionSort _ _, ?_⟩
    simp [kedroDataCatalogInit, validate_missing_keys_eq, abstractCatalogInit, h]

/-- C1 witness: with no patterns, the key "cfg" present in the configuration passes
validation and construction succeeds unchanged; the unknown keys "zz" and "aa" make
construction fail with the sorted enumeration in the message. -/
theorem init_fails_iff_unknown_load_version_keys_witness :
    (kedroDataCatalogInit (fun _ => false) [] [("cfg", [])] [("cfg", "v")] none =
      .ok (abstractCatalogInit [] [("cfg", [])] [("cfg", "v")] none)) ∧
    (∃ l, l.Perm (offendingKeys (fun _ => false) [] [("zz", "v"), ("aa", "w")]) ∧
      List.Sorted (· ≤ ·) l ∧
      kedroDataCatalogInit (fun _ => false) [] [] [("zz", "v"), ("aa", "w")] none =
        .error (.datasetNotFound ("'load_versions' keys [" ++
          String.intercalate ", " l ++ "] are not found in the catalog."))) :=
  ⟨(init_fails_iff_unknown_load_version_keys (fun _ => false) [] [("cfg", [])]
      [("cfg", "v")] none).1 (by decide),
   (init_fails_iff_unknown_load_version_keys (fun _ => false) [] []
      [("zz", "v"), ("aa", "w")] none).2 (by decide)⟩

/-! ### C5: `add_from_dict` -/

/-- C5: `add_from_dict` processes entries in order — splitting the input anywhere, the
result is the result of the prefix, then (when the prefix succeeded) the middle entry
added with `add` semantics after converting it (a dataset as-is, any other value
wrapped in an in-memory dataset), then the rest; an error stops processing but keeps
the state reached so far (no rollback), and a successfully added wrapped literal is
afterwards loaded back as that literal value. -/
theorem add_from_dict_in_order_no_rollback (cat : KedroDataCatalog)
    (pre : List (String × RawValue)) (name : String) (v : RawValue)
    (rest : List (String × RawValue)) (replace : Bool) :
    (add_from_dict cat (pre ++ (name, v) :: rest) replace =
      match add_from_dict cat pre replace with
      | (cat1, none) =>
        (match add cat1 name v.toDataset replace with
         | .ok cat2 => add_from_dict cat2 rest replace
         | .error e => (cat1, some e))
      | (cat1, some e) => (cat1, some e)) ∧
    (∀ d : Dataset, RawValue.toDataset (.dataset d) = d) ∧
    (∀ (x : Nat) (cat2 : KedroDataCatalog) fromConfig resolvePattern,
      add cat name (RawValue.toDataset (.value x)) replace = .ok cat2 →
      load fromConfig resolvePattern cat2 name none = .ok (.memory x, cat2)) := by
  refine ⟨?_, fun d => rfl, fun x cat2 fc rp hadd => ?_⟩
  · induction pre generalizing cat with
    | nil => simp only [List.nil_append, add_from_dict]
    | cons p pre ih =>
      obtain ⟨pn, pv⟩ := p
      simp only [List.cons_append, add_from_dict]
      cases hp : add cat pn pv.toDataset replace with
      | ok cat' => simpa using ih cat'
      | error e => rfl
  · have hcat2 : cat2 = addedState cat name (MemoryDataset x) := by
      by_cases hreg : (assocGet cat.datasets name).isSome && !replace
      · simp [add, hreg] at hadd
      · simp [add, hreg, RawValue.toDataset] at hadd
        exact hadd.symm
    subst hcat2
    simp [load, get_dataset, abstractGetDataset, addedState, assocGet_assocSet_self,
      Dataset.loadResult, MemoryDataset]

/-- C5 witness: splitting around the literal entry ("m", 42) shows in-order
processing; adding it succeeds and loading "m" returns the literal 42. -/
theorem add_from_dict_in_order_no_rollback_witness :
    (add_from_dict catTest ([("a", .dataset dsOther)] ++ ("m", .value 42) ::
        [("plain", .dataset dsOther)]) false =
      match add_from_dict catTest [("a", .dataset dsOther)] false with
      | (cat1, none) =>
        (match add cat1 "m" (RawValue.toDataset (.value 42)) false with
         | .ok cat2 => add_from_dict cat2 [("plain", .dataset dsOther)] false
         | .error e => (cat1, some e))
      | (cat1, some e) => (cat1, some e)) ∧
    load fcTest rpTest (addedState catTest "m" (MemoryDataset 42)) "m" none =
      .ok (.memory 42, addedState catTest "m" (MemoryDataset 42)) :=
  ⟨(add_from_dict_in_order_no_rollback catTest [("a", .dataset dsOther)] "m"
      (.value 42) [("plain", .dataset dsOther)] false).1,
   (add_from_dict_in_order_no_rollback catTest [] "m" (.value 42) [] false).2.2 42
      (addedState catTest "m" (MemoryDataset 42)) fcTest rpTest rfl⟩

/-! ### C7: `_sub_nonword_chars` replaces maximal non-word runs -/

theorem subNonwordAux_append_word (w t : List Char)
    (hw : ∀ c ∈ w, isWordChar c = true) :
    subNonwordAux false (w ++ t) = w ++ subNonwordAux false t := by
  induction w with
  | nil => rfl
  | cons c w ih =>
    have hc : isWordChar c = true := hw c (List.mem_cons_self _ _)
    simp [subNonwordAux, hc, ih (fun x hx => hw x (List.mem_cons_of_mem _ hx))]

theorem subNonwordAux_true_eq (l : List Char) :
    subNonwordAux true l =
      subNonwordAux false (l.dropWhile (fun x => !isWordChar x)) := by
  induction l with
  | nil => rfl
  | cons c rest ih =>
    by_cases hc : isWordChar c = true
    · simp [subNonwordAux, hc, List.dropWhile_cons]
    · simp [subNonwordAux, hc, List.dropWhile_cons, ih]

theorem subNonwordAux_all_word (l : List Char) (h : l.all isWordChar = true) :
    subNonwordAux false l = l := by
  induction l with
  | nil => rfl
  | cons c rest ih =>
    simp only [List.all_cons, Bool.and_eq_true] at h
    simp [subNonwordAux, h.1, ih h.2]

theorem wordRuns_nil : wordRuns [] = [] := by
  rw [wordRuns.eq_def]

theorem wordRuns_cons (c : Char) (rest : List Char) :
    wordRuns (c :: rest) =
      if isWordChar c then
        (c :: rest.takeWhile isWordChar) :: wordRuns (rest.dropWhile isWordChar)
      else
        (c :: rest.takeWhile (fun x => !isWordChar x)) ::
          wordRuns (rest.dropWhile (fun x => !isWordChar x)) := by
  rw [wordRuns.eq_def]

theorem subNonword_eq_sanitizeSpec (l : List Char) :
    subNonwordAux false l = sanitizeSpec l := by
  cases l with
  | nil => simp [sanitizeSpec, wordRuns_nil, subNonwordAux]
  | cons c rest =>
    by_cases hc : isWordChar c = true
    · have ih := subNonword_eq_sanitizeSpec (rest.dropWhile isWordChar)
      have hall : (c :: rest.takeWhile isWordChar).all isWordChar = true := by
        simp only [List.all_cons, hc, Bool.true_and]
        exact List.all_eq_true.mpr (fun x hx => List.mem_takeWhile_imp hx)
      calc subNonwordAux false (c :: rest)
          = c :: subNonwordAux false rest := by simp [subNonwordAux, hc]
        _ = c :: subNonwordAux false
              (rest.takeWhile isWordChar ++ rest.dropWhile isWordChar) := by
            rw [List.takeWhile_append_dropWhile]
        _ = c :: (rest.takeWhile isWordChar ++
              subNonwordAux false (rest.dropWhile isWordChar)) := by
            rw [subNonwordAux_append_word _ _
              (fun x hx => List.mem_takeWhile_imp hx)]
        _ = c :: (rest.takeWhile isWordChar ++
              sanitizeSpec (rest.dropWhile isWordChar)) := by rw [ih]
        _ = sanitizeSpec (c :: rest) := by
            have htk : ∀ a ∈ rest.takeWhile isWordChar, isWordChar a = true :=
              fun x hx => List.mem_takeWhile_imp hx
            simp [sanitizeSpec, wordRuns_cons, hc, hall]
            rw [if_pos htk]
            simp
    · have hc' : isWordChar c = false := by simpa using hc
      have ih := subNonword_eq_sanitizeSpec (rest.dropWhile (fun x => !isWordChar x))
      calc subNonwordAux false (c :: rest)
          = '_' :: '_' :: subNonwordAux true rest := by simp [subNonwordAux, hc']
        _ = '_' :: '_' :: subNonwordAux false
              (rest.dropWhile (fun x => !isWordChar x)) := by
            rw [subNonwordAux_true_eq]
        _ = '_' :: '_' :: sanitizeSpec (rest.dropWhile (fun x => !isWordChar x)) := by
            rw [ih]
        _ = sanitizeSpec (c :: rest) := by
            simp [sanitizeSpec, wordRuns_cons, hc']
termination_by l.length
decreasing_by
  · simp only [List.length_cons]
    exact Nat.lt_succ_of_le (List.dropWhile_sublist _).length_le
  · simp only [List.length_cons]
    exact Nat.lt_succ_of_le (List.dropWhile_sublist _).length_le

/-- C7: `_sub_nonword_chars` equals the specification's sanitisation — every maximal
run of non-word characters replaced by a double underscore — and a string of only
word characters is left unchanged. -/
theorem sub_nonword_chars_replaces_maximal_runs (s : String) :
    _sub_nonword_chars s = String.mk (sanitizeSpec s.toList) ∧
    (s.toList.all isWordChar = true → _sub_nonword_chars s = s) := by
  constructor
  · unfold _sub_nonword_chars
    rw [subNonword_eq_sanitizeSpec]
  · intro h
    unfold _sub_nonword_chars
    rw [subNonwordAux_all_word _ h]
    cases s
    rfl

/-- C7 witness: "ns.a!!b" sanitises to the runs-based form, and "abc_1" (only word
characters) is unchanged. -/
theorem sub_nonword_chars_replaces_maximal_runs_witness :
    _sub_nonword_chars "ns.a!!b" = String.mk (sanitizeSpec "ns.a!!b".toList) ∧
    ("abc_1".toList.all isWordChar = true ∧ _sub_nonword_chars "abc_1" = "abc_1") :=
  ⟨(sub_nonword_chars_replaces_maximal_runs "ns.a!!b").1,
   by decide, (sub_nonword_chars_replaces_maximal_runs "abc_1").2 (by decide)⟩

/-! ### C8, C10: mutation of the frozen namespace -/

/-- C8 counterexample: on the namespace constructed from the single collection
`{"a": dsPlain}`, setting the attribute `_original_names` succeeds and deleting the
present attribute "a" succeeds, so it is not the case that every attempt to set or
delete an attribute raises an AttributeError. -/
theorem frozen_mutation_rejection_counterexample :
    frozenInit [.dict [("a", dsPlain)]] = .ok fdTest ∧
    (fdTest.setattr "_original_names" (.names [])).isOk = true ∧
    (fdTest.delattr "a").isOk = true :=
  ⟨rfl, rfl, rfl⟩

/-- C8 (amended): setting any attribute other than `_original_names` raises an
AttributeError whose message distinguishes a present key (directing to configuration)
from an absent one (directing to the catalog's add operation); setting
`_original_names` succeeds, and deletion is not intercepted — deleting a present
attribute succeeds and deleting an absent one raises the Python default
AttributeError. -/
theorem frozen_setattr_rejects_other_keys (fd : FrozenDatasets) (key : String)
    (value : PyEntry) (hkey : key ≠ "_original_names") :
    ((assocGet fd.dict key).isSome = true →
      fd.setattr key value =
        .error "Operation not allowed! Please change datasets through configuration.") ∧
    ((assocGet fd.dict key).isSome = false →
      fd.setattr key value =
        .error "Operation not allowed! Please use DataCatalog.add() instead.") ∧
    (∃ fd', fd.setattr "_original_names" value = .ok fd') ∧
    ((assocGet fd.dict key).isSome = true → (fd.delattr key).isOk = true) ∧
    ((assocGet fd.dict key).isSome = false →
      fd.delattr key =
        .error ("'_FrozenDatasets' object has no attribute '" ++ key ++ "'")) := by
  refine ⟨fun h => ?_, fun h => ?_, ?_, fun h => ?_, fun h => ?_⟩
  · simp [FrozenDatasets.setattr, hkey, h]
  · simp [FrozenDatasets.setattr, hkey, h]
  · exact ⟨⟨assocSet fd.dict "_original_names" value⟩, by
      simp [FrozenDatasets.setattr]⟩
  · simp [FrozenDatasets.delattr, h, Except.isOk, Except.toBool]
  · simp [FrozenDatasets.delattr, h]

/-- C8 witness: on the constructed namespace `fdTest`, setting the present key "a"
and the absent key "zz" each raise the distinguishing message. -/
theorem frozen_setattr_rejects_other_keys_witness :
    (fdTest.setattr "a" (.ds dsOther) =
      .error "Operation not allowed! Please change datasets through configuration.") ∧
    (fdTest.setattr "zz" (.ds dsOther) =
      .error "Operation not allowed! Please use DataCatalog.add() instead.") :=
  ⟨(frozen_setattr_rejects_other_keys fdTest "a" (.ds dsOther) (by decide)).1 rfl,
   (frozen_setattr_rejects_other_keys fdTest "zz" (.ds dsOther) (by decide)).2.1 rfl⟩

/-- C10: setting the attribute named `_original_names` always succeeds without
raising, replacing the namespace's record of original dataset names. -/
theorem frozen_setattr_original_names_allowed (fd : FrozenDatasets) (value : PyEntry) :
    fd.setattr "_original_names" value =
      .ok ⟨assocSet fd.dict "_original_names" value⟩ ∧
    (∀ m : List String,
      FrozenDatasets.keyCompletions ⟨assocSet fd.dict "_original_names" (.names m)⟩ =
        some m) := by
  refine ⟨by simp [FrozenDatasets.setattr], fun m => ?_⟩
  simp [FrozenDatasets.keyCompletions, assocGet_assocSet_self]

/-! ### C9: sanitised-key collisions keep the last write, names stay enumerable -/

theorem frozenFold_error (entries : List (String × Dataset)) (e : String) :
    entries.foldl (fun (acc : Except String (List (String × PyEntry))) kv =>
      acc.bind (fun d => frozenAddEntry d kv.1 kv.2)) (.error e) = .error e := by
  induction entries with
  | nil => rfl
  | cons p rest ih => simpa [Except.bind] using ih

theorem mem_namesFold (entries : List (String × Dataset)) (m : List String) :
    (∀ x ∈ m, x ∈ entries.foldl (fun acc p => namesInsert acc p.1) m) ∧
    (∀ p ∈ entries, p.1 ∈ entries.foldl (fun acc p => namesInsert acc p.1) m) := by
  induction entries generalizing m with
  | nil => exact ⟨fun x hx => hx, fun p hp => absurd hp (List.not_mem_nil p)⟩
  | cons q rest ih =>
    have hmono : ∀ x ∈ m, x ∈ namesInsert m q.1 := by
      intro x hx
      unfold namesInsert
      split <;> simp [hx]
    have hq : q.1 ∈ namesInsert m q.1 := by
      unfold namesInsert
      split
      · assumption
      · simp
    constructor
    · intro x hx
      simpa using (ih (namesInsert m q.1)).1 x (hmono x hx)
    · intro p hp
      rcases List.mem_cons.mp hp with h | h
      · subst h
        simpa using (ih (namesInsert m p.1)).1 p.1 hq
      · simpa using (ih (namesInsert m q.1)).2 p h

theorem frozenFoldDict_spec (entries : List (String × Dataset))
    (dict dictF : List (String × PyEntry)) (m : List String)
    (hslot : assocGet dict "_original_names" = some (.names m))
    (hok : entries.foldl (fun (acc : Except String (List (String × PyEntry))) kv =>
        acc.bind (fun d => frozenAddEntry d kv.1 kv.2)) (.ok dict) = .ok dictF) :
    (∀ p ∈ entries, _sub_nonword_chars p.1 ≠ "_original_names") ∧
    assocGet dictF "_original_names" =
      some (.names (entries.foldl (fun acc p => namesInsert acc p.1) m)) ∧
    (∀ k, k ≠ "_original_names" →
      assocGet dictF k =
        (match entries.reverse.find? (fun p => _sub_nonword_chars p.1 == k) with
         | some p => some (.ds p.2)
         | none => assocGet dict k)) := by
  induction entries generalizing dict m with
  | nil =>
    simp only [List.foldl_nil, Except.ok.injEq] at hok
    subst hok
    refine ⟨fun p hp => absurd hp (List.not_mem_nil p), hslot, fun k hk => ?_⟩
    simp
  | cons q rest ih =>
    obtain ⟨n, d⟩ := q
    simp only [List.foldl_cons] at hok
    by_cases hsn : _sub_nonword_chars n = "_original_names"
    · exfalso
      have hentry : frozenAddEntry dict n d =
          .error "TypeError: _original_names does not hold a dict" := by
        simp only [frozenAddEntry]
        rw [hsn, assocGet_assocSet_self]
      rw [show ((Except.ok dict).bind (fun d0 => frozenAddEntry d0 n d)) =
            frozenAddEntry dict n d from rfl, hentry, frozenFold_error] at hok
      exact Except.noConfusion hok
    · have hget1 : assocGet (assocSet dict (_sub_nonword_chars n) (.ds d))
          "_original_names" = some (.names m) := by
        rw [assocGet_assocSet_ne _ _ (fun h => hsn h.symm), hslot]
      have hentry : frozenAddEntry dict n d =
          .ok (assocSet (assocSet dict (_sub_nonword_chars n) (.ds d))
            "_original_names" (.names (namesInsert m n))) := by
        simp only [frozenAddEntry]
        rw [hget1]
      rw [show ((Except.ok dict).bind (fun d0 => frozenAddEntry d0 n d)) =
            frozenAddEntry dict n d from rfl, hentry] at hok
      have hslot2 : assocGet (assocSet (assocSet dict (_sub_nonword_chars n) (.ds d))
          "_original_names" (.names (namesInsert m n))) "_original_names" =
          some (.names (namesInsert m n)) := assocGet_assocSet_self _ _ _
      obtain ⟨ih1, ih2, ih3⟩ := ih _ _ hslot2 hok
      refine ⟨?_, ?_, ?_⟩
      · intro p hp
        rcases List.mem_cons.mp hp with h | h
        · subst h
          exact hsn
        · exact ih1 p h
      · simpa using ih2
      · intro k hk
        rw [ih3 k hk]
        have hrev : ((n, d) :: rest).reverse = rest.reverse ++ [(n, d)] := by simp
        rw [hrev, List.find?_append]
        cases hfind : rest.reverse.find? (fun p => _sub_nonword_chars p.1 == k) with
        | some q => simp
        | none =>
          simp only [Option.orElse_none, Option.none_orElse]
          rw [assocGet_assocSet_ne _ _ hk]
          by_cases hkn : _sub_nonword_chars n = k
          · subst hkn
            simp [assocGet_assocSet_self]
          · rw [assocGet_assocSet_ne _ _ (fun h => hkn h.symm)]
            have hbeq : (_sub_nonword_chars n == k) = false := by simp [hkn]
            simp [List.find?, hbeq]

/-- C9: when two names registered in the same construction collide on their sanitised
key, indexed lookup by either original name returns the dataset of the name registered
last, while the namespace still enumerates every original name. -/
theorem frozen_collision_last_write_wins
    (pre mid : List (String × Dataset)) (n1 n2 : String) (d1 d2 : Dataset)
    (fd : FrozenDatasets)
    (hsan : _sub_nonword_chars n1 = _sub_nonword_chars n2)
    (hinit : frozenInit [.dict (pre ++ (n1, d1) :: mid ++ [(n2, d2)])] = .ok fd) :
    fd.getitem n1 = some (.ds d2) ∧ fd.getitem n2 = some (.ds d2) ∧
    ∃ names, fd.keyCompletions = some names ∧
      ∀ p ∈ pre ++ (n1, d1) :: mid ++ [(n2, d2)], p.1 ∈ names := by
  have hcoll : frozenAddCollection [("_original_names", PyEntry.names [])]
      (.dict (pre ++ (n1, d1) :: mid ++ [(n2, d2)])) = .ok fd.dict := by
    unfold frozenInit at hinit
    simp only [List.foldl_cons, List.foldl_nil, Except.bind] at hinit
    cases hres : frozenAddCollection [("_original_names", PyEntry.names [])]
        (.dict (pre ++ (n1, d1) :: mid ++ [(n2, d2)])) with
    | ok dd =>
      rw [hres] at hinit
      simp only [Except.map] at hinit
      injection hinit with h
      rw [← h]
    | error e =>
      rw [hres] at hinit
      simp only [Except.map] at hinit
      exact Except.noConfusion hinit
  simp only [frozenAddCollection] at hcoll
  obtain ⟨h1, h2, h3⟩ := frozenFoldDict_spec (pre ++ (n1, d1) :: mid ++ [(n2, d2)])
    [("_original_names", PyEntry.names [])] fd.dict [] rfl hcoll
  have hk2 : _sub_nonword_chars n2 ≠ "_original_names" :=
    h1 (n2, d2) (by simp)
  have hrev : (pre ++ (n1, d1) :: mid ++ [(n2, d2)]).reverse =
      (n2, d2) :: (mid.reverse ++ (n1, d1) :: pre.reverse) := by simp
  have hmain : assocGet fd.dict (_sub_nonword_chars n2) = some (.ds d2) := by
    rw [h3 _ hk2, hrev]
    rw [List.find?_cons_of_pos _ (by simp)]
  refine ⟨?_, ?_, ?_⟩
  · show assocGet fd.dict (_sub_nonword_chars n1) = some (.ds d2)
    rw [hsan]
    exact hmain
  · exact hmain
  · refine ⟨(pre ++ (n1, d1) :: mid ++ [(n2, d2)]).foldl
      (fun acc p => namesInsert acc p.1) [], ?_, ?_⟩
    · simp [FrozenDatasets.keyCompletions, h2]
    · exact (mem_namesFold _ _).2

/-- C9 witness: "a.b" and "a b" both sanitise to "a__b"; after construction, lookup by
either name yields the later dataset while both names are still enumerated. -/
theorem frozen_collision_last_write_wins_witness :
    fdCollision.getitem "a.b" = some (.ds dsOther) ∧
    fdCollision.getitem "a b" = some (.ds dsOther) ∧
    ∃ names, fdCollision.keyCompletions = some names ∧
      ∀ p ∈ [("a.b", dsPlain), ("a b", dsOther)], p.1 ∈ names := by
  have h := frozen_collision_last_write_wins [] [] "a.b" "a b" dsPlain dsOther
    fdCollision rfl rfl
  simpa using h

end Kedro
